import Mathlib

/-!
Verification development for the `cook-dobby` recipe-generation service.

The subject is the request/response core in `src/app/api/recipe/route.ts`:

* `fwFetchWithRetry` — the retrying HTTP transport (retry on 429/5xx with
  exponential backoff `300 * 2^attempt`, at most 3 attempts, throwing the
  last captured body once exhausted);
* the response extraction step (`raw.match` with the end-anchored regex
  followed by `JSON.parse`);
* the shape validation / normalization of the two payload modes
  (`landing` and `recipe`) performed by the `POST` handler.

JavaScript strings are embedded as `List Char`; JSON values as the
inductive `JsonV` (numbers keep their source lexeme, which is enough
because the handler never computes with numbers); JavaScript exceptions
as the `Except` error channel, mapped by the handler's outer `catch` to a
500 response.  HTTP outcomes are `PostResult`, carrying the exact status
code and error discriminator the route returns.
-/

/-- A JavaScript string, embedded as its list of characters. -/
abbrev JStr := List Char

/-- Shorthand for turning a Lean string literal into a `JStr`. -/
def jstr (s : String) : JStr := s.data

/-- The `\x7b` character (left curly brace), named to keep string escapes tidy. -/
def lbrace : Char := Char.ofNat 123

/-- The `\x7d` character (right curly brace). -/
def rbrace : Char := Char.ofNat 125

/-- Whitespace class used by the `\s` regex class and by `String.prototype.trim`
(restricted to the ASCII whitespace the payloads can contain). -/
def isWsJS (c : Char) : Bool :=
  c == Char.ofNat 32 || c == Char.ofNat 9 || c == Char.ofNat 10 ||
    c == Char.ofNat 13 || c == Char.ofNat 11 || c == Char.ofNat 12

/-- `String.prototype.trim`: drop leading and trailing whitespace. -/
def jsTrim (s : JStr) : JStr :=
  ((s.dropWhile isWsJS).reverse.dropWhile isWsJS).reverse

/-- `String.prototype.toUpperCase`, characterwise (ASCII letters only, which is
what `Char.toUpper` implements and what the slug pipeline can observe). -/
def jsUpper (s : JStr) : JStr := s.map Char.toUpper

/-- `String.prototype.toLowerCase`, characterwise (ASCII letters only). -/
def jsLower (s : JStr) : JStr := s.map Char.toLower

/-- Characters kept by `slugify`'s `.replace(/[^a-z0-9\s-]/g, "")`. -/
def slugKeep (c : Char) : Bool :=
  (Char.ofNat 97 ≤ c && c ≤ Char.ofNat 122) ||
    (Char.ofNat 48 ≤ c && c ≤ Char.ofNat 57) || isWsJS c || c == Char.ofNat 45

/-- Length of `dropWhile` never exceeds the input length (used for termination). -/
theorem lengthDropWhileLe (p : Char → Bool) (l : JStr) :
    (l.dropWhile p).length ≤ l.length := by
  induction l with
  | nil => simp
  | cons a t ih =>
    by_cases h : p a
    · simp only [List.dropWhile, h]
      exact Nat.le_succ_of_le ih
    · simp [List.dropWhile, h]

/-- Worker for the `.replace(/\s+/g, "-")` step: `inRun` records whether the
previous character belonged to a whitespace run; a run emits one `-` when it
starts and nothing afterwards. -/
def collapseGo (inRun : Bool) : JStr → JStr
  | [] => []
  | c :: rest =>
    if isWsJS c then (if inRun then [] else ['-']) ++ collapseGo true rest
    else c :: collapseGo false rest

/-- The `.replace(/\s+/g, "-")` step: each maximal whitespace run becomes one `-`. -/
def collapseWs (l : JStr) : JStr := collapseGo false l

/-- `slugify` from the route: lower-case, strip everything outside
`[a-z0-9\s-]`, trim, then turn whitespace runs into hyphens. -/
def slugify (input : JStr) : JStr :=
  collapseWs (jsTrim ((jsLower input).filter slugKeep))

/-- Does the string start with `/` (the `url?.startsWith("/")` test)? -/
def leadSlash : JStr → Bool
  | '/' :: _ => true
  | _ => false

/-- JSON values as produced by `JSON.parse`.  A number keeps its source
lexeme: the handler never computes with numbers, so nothing observable
depends on numeric decoding. -/
inductive JsonV where
  | null
  | bool (b : Bool)
  | num (lexeme : JStr)
  | str (s : JStr)
  | arr (elems : List JsonV)
  | obj (fields : List (String × JsonV))

/-- Field lookup on a JavaScript object (first binding wins; the parser keeps
bindings unique). -/
def lookupF : List (String × JsonV) → String → Option JsonV
  | [], _ => none
  | (k, v) :: t, key => if k = key then some v else lookupF t key

/-- Property assignment `o[key] = v`: replace in place when the key exists,
append otherwise (JavaScript insertion-order semantics). -/
def setField : List (String × JsonV) → String → JsonV → List (String × JsonV)
  | [], key, v => [(key, v)]
  | (k, w) :: t, key, v => if k = key then (key, v) :: t else (k, w) :: setField t key v

/-- Property read `o.key` on a non-null value: a lookup on objects, `undefined`
(here `none`) on every other non-null value. -/
def jProp : JsonV → String → Option JsonV
  | .obj fs, key => lookupF fs key
  | _, _ => none

/-- Property write on a value known to be an object (no-op otherwise; the
handler only assigns to values it has just verified to be objects). -/
def objSet : JsonV → String → JsonV → JsonV
  | .obj fs, key, v => .obj (setField fs key v)
  | other, _, _ => other

/-- The diagnostic text of the `TypeError` the runtime raises when a property
or method is accessed on a value that cannot carry it. -/
def typeErrMsg : JStr := jstr "TypeError"

/-- Property read that can throw: reading any property of `null` raises a
`TypeError` (this is how the per-section and per-group code can crash). -/
def hAccess (v : JsonV) (key : String) : Except JStr (Option JsonV) :=
  match v with
  | .null => .error typeErrMsg
  | .obj fs => .ok (lookupF fs key)
  | _ => .ok none

/-- Truthiness of a JSON value under JavaScript coercion.  A parsed number is
falsy exactly when its mantissa digits are all zero. -/
def jTruthy : JsonV → Bool
  | .null => false
  | .bool b => b
  | .str s => !s.isEmpty
  | .num lex =>
    !((lex.takeWhile (fun c => c != 'e' && c != 'E')).all
      (fun c => c == '0' || c == '-' || c == '+' || c == '.'))
  | .arr _ => true
  | .obj _ => true

mutual

/-- JavaScript `String(x)` coercion.  (A number is rendered as its lexeme; the
handler only ever coerces strings in the paths the theorems exercise.) -/
def jsToString : JsonV → JStr
  | .str s => s
  | .null => jstr "null"
  | .bool true => jstr "true"
  | .bool false => jstr "false"
  | .num lex => lex
  | .arr xs => arrToString xs
  | .obj _ => jstr "[object Object]"

/-- `Array.prototype.toString`: elements joined by commas, null rendered empty. -/
def arrToString : List JsonV → JStr
  | [] => []
  | [x] => match x with
    | .null => []
    | v => jsToString v
  | x :: y :: t =>
    (match x with
      | .null => []
      | v => jsToString v) ++ ',' :: arrToString (y :: t)

end

/-- The extraction step `raw.match(/\x7b[\s\S]*\x7d$/)`: the regex matches iff
the text ends in `\x7d` and an earlier `\x7b` exists, and then the match runs
from the first `\x7b` to the end of the string; on a match the matched span
replaces `raw`, otherwise `raw` is left whole. -/
def extractJson (raw : JStr) : JStr :=
  let t := raw.dropWhile (fun c => c != lbrace)
  if 2 ≤ t.length ∧ t.getLast? = some rbrace then t else raw

/-- Error discriminators of the route's failure responses, each carrying the
diagnostic payload the route attaches. -/
inductive ErrKind where
  | fireworksError (details : JStr)
  | invalidModelJson (raw : JStr)
  | landingShape (parsed : JsonV)
  | recipeShape (parsed : JsonV)
  | unknownMode (parsed : JsonV)
  | caught (msg : JStr)

/-- Outcome of the `POST` handler from the transport phase onward: a 200 with
the normalized payload, or an error response with its HTTP status. -/
inductive PostResult where
  | ok (body : JsonV)
  | fail (status : Nat) (kind : ErrKind)

/-- JSON whitespace accepted between tokens by `JSON.parse`. -/
def wsJson (c : Char) : Bool :=
  c == Char.ofNat 32 || c == Char.ofNat 9 || c == Char.ofNat 10 || c == Char.ofNat 13

/-- Hexadecimal digit value, for `\uXXXX` escapes. -/
def hexDigit (c : Char) : Option Nat :=
  let n := c.toNat
  if 48 ≤ n ∧ n ≤ 57 then some (n - 48)
  else if 97 ≤ n ∧ n ≤ 102 then some (n - 87)
  else if 65 ≤ n ∧ n ≤ 70 then some (n - 55)
  else none

/-- Decode one escape sequence after the backslash inside a JSON string
literal, returning the character and the remaining input. -/
def decodeEscape : JStr → Option (Char × JStr)
  | e :: r =>
    if e == '"' then some ('"', r)
    else if e == '\\' then some ('\\', r)
    else if e == '/' then some ('/', r)
    else if e == 'n' then some ('\n', r)
    else if e == 't' then some ('\t', r)
    else if e == 'r' then some ('\r', r)
    else if e == 'b' then some (Char.ofNat 8, r)
    else if e == 'f' then some (Char.ofNat 12, r)
    else if e == 'u' then
      match r with
      | h1 :: h2 :: h3 :: h4 :: r4 =>
        match hexDigit h1, hexDigit h2, hexDigit h3, hexDigit h4 with
        | some a, some b, some c, some d =>
          some (Char.ofNat (((a * 16 + b) * 16 + c) * 16 + d), r4)
        | _, _, _, _ => none
      | _ => none
    else none
  | [] => none

/-- Lex a JSON number, returning its lexeme and the rest of the input. -/
def parseNumLex (l : JStr) : Option (JStr × JStr) :=
  let (sign, r1) := match l with
    | '-' :: r => (['-'], r)
    | _ => (([] : JStr), l)
  let ds := r1.takeWhile Char.isDigit
  let r2 := r1.dropWhile Char.isDigit
  if ds.isEmpty then none
  else
    let (frac, r3) := match r2 with
      | '.' :: r =>
        let fd := r.takeWhile Char.isDigit
        if fd.isEmpty then (([] : JStr), r2) else ('.' :: fd, r.dropWhile Char.isDigit)
      | _ => (([] : JStr), r2)
    let (expo, r4) := match r3 with
      | e :: r =>
        if e == 'e' || e == 'E' then
          let (es, re) := match r with
            | '+' :: rr => (['+'], rr)
            | '-' :: rr => (['-'], rr)
            | _ => (([] : JStr), r)
          let ed := re.takeWhile Char.isDigit
          if ed.isEmpty then (([] : JStr), r3)
          else (e :: (es ++ ed), re.dropWhile Char.isDigit)
        else (([] : JStr), r3)
      | _ => (([] : JStr), r3)
    some (sign ++ ds ++ frac ++ expo, r4)

mutual

/-- Fuel-indexed recursive-descent JSON value parser (the model of
`JSON.parse`'s grammar); returns the value and the unconsumed input. -/
def parseVal : Nat → JStr → Option (JsonV × JStr)
  | 0, _ => none
  | Nat.succ fuel, input =>
    match input.dropWhile wsJson with
    | [] => none
    | c :: r =>
      if c == lbrace then
        match r.dropWhile wsJson with
        | c2 :: r2 =>
          if c2 == rbrace then some (.obj [], r2)
          else parseMembers fuel (r.dropWhile wsJson) []
        | [] => none
      else if c == '[' then
        match r.dropWhile wsJson with
        | ']' :: r2 => some (.arr [], r2)
        | _ => parseItems fuel (r.dropWhile wsJson) []
      else if c == '"' then
        match parseStrBody fuel r with
        | some (s, r2) => some (.str s, r2)
        | none => none
      else if c == 'n' then
        match r with
        | 'u' :: 'l' :: 'l' :: r2 => some (.null, r2)
        | _ => none
      else if c == 't' then
        match r with
        | 'r' :: 'u' :: 'e' :: r2 => some (.bool true, r2)
        | _ => none
      else if c == 'f' then
        match r with
        | 'a' :: 'l' :: 's' :: 'e' :: r2 => some (.bool false, r2)
        | _ => none
      else
        match parseNumLex (c :: r) with
        | some (lex, r2) => some (.num lex, r2)
        | none => none

/-- Parse the body of a string literal after its opening quote. -/
def parseStrBody : Nat → JStr → Option (JStr × JStr)
  | 0, _ => none
  | Nat.succ fuel, l =>
    match l with
    | [] => none
    | c :: r =>
      if c == '"' then some ([], r)
      else if c == '\\' then
        match decodeEscape r with
        | some (ch, rest) =>
          match parseStrBody fuel rest with
          | some (s, r2) => some (ch :: s, r2)
          | none => none
        | none => none
      else
        match parseStrBody fuel r with
        | some (s, r2) => some (c :: s, r2)
        | none => none

/-- Parse the members of an object (cursor just before a key string);
duplicate keys overwrite in place, as `JSON.parse` does. -/
def parseMembers : Nat → JStr → List (String × JsonV) → Option (JsonV × JStr)
  | 0, _, _ => none
  | Nat.succ fuel, l, acc =>
    match l.dropWhile wsJson with
    | '"' :: r =>
      match parseStrBody fuel r with
      | some (k, r1) =>
        match r1.dropWhile wsJson with
        | ':' :: r3 =>
          match parseVal fuel r3 with
          | some (v, r4) =>
            let acc2 := setField acc (String.mk k) v
            match r4.dropWhile wsJson with
            | ',' :: r6 => parseMembers fuel r6 acc2
            | c2 :: r6 => if c2 == rbrace then some (.obj acc2, r6) else none
            | [] => none
          | none => none
        | _ => none
      | none => none
    | _ => none

/-- Parse the items of a non-empty array (cursor just before a value). -/
def parseItems : Nat → JStr → List JsonV → Option (JsonV × JStr)
  | 0, _, _ => none
  | Nat.succ fuel, l, acc =>
    match parseVal fuel l with
    | some (v, r) =>
      match r.dropWhile wsJson with
      | ',' :: r2 => parseItems fuel r2 (acc ++ [v])
      | ']' :: r2 => some (.arr (acc ++ [v]), r2)
      | _ => none
    | none => none

end

/-- The model of `JSON.parse`: parse one value and insist the rest of the
input is whitespace; `none` is a thrown `SyntaxError`. -/
def jsonParse (l : JStr) : Option JsonV :=
  match parseVal (2 * l.length + 8) l with
  | some (v, rest) => if (rest.dropWhile wsJson).isEmpty then some v else none
  | none => none

/-- The `"landing"` mode tag. -/
def modeLanding : JStr := jstr "landing"

/-- The `"recipe"` mode tag. -/
def modeRecipe : JStr := jstr "recipe"

/-- The `/recipes/` path stem used when a section url has to be derived. -/
def recipesStem : JStr := jstr "/recipes/"

/-- Build the normalized section object literal. -/
def secObj (title teaser url : JStr) : JsonV :=
  .obj [("title", .str title), ("teaser", .str teaser), ("url", .str url)]

/-- Per-section normalization from the landing branch:
`title = s.title.toUpperCase().trim()`, then
`url = s.url?.startsWith("/") ? s.url : "/recipes/" + slugify(title)`, then the
section literal with `teaser = s.teaser?.trim() ?? ""`.  A missing or
non-string `title` (or a non-string, non-null `url`/`teaser`) throws. -/
def sectionUrl (s : JsonV) (title : JStr) : Except JStr JStr :=
  match jProp s "url" with
  | some (.str u) => .ok (if leadSlash u then u else recipesStem ++ slugify title)
  | none => .ok (recipesStem ++ slugify title)
  | some .null => .ok (recipesStem ++ slugify title)
  | some _ => .error typeErrMsg

/-- The teaser expression `s.teaser?.trim() ?? ""` (throws on a non-string,
non-nullish teaser). -/
def sectionTeaser (s : JsonV) : Except JStr JStr :=
  match jProp s "teaser" with
  | some (.str te) => .ok (jsTrim te)
  | none => .ok []
  | some .null => .ok []
  | some _ => .error typeErrMsg

/-- Per-section normalization continued: the title is computed first, then the
url, then the section literal with the teaser expression. -/
def normSectionJ (s : JsonV) : Except JStr JsonV :=
  match hAccess s "title" with
  | .error m => .error m
  | .ok (some (.str t0)) =>
    match sectionUrl s (jsTrim (jsUpper t0)) with
    | .error m => .error m
    | .ok url =>
      match sectionTeaser s with
      | .error m => .error m
      | .ok te => .ok (secObj (jsTrim (jsUpper t0)) te url)
  | .ok _ => .error typeErrMsg

/-- Map a fallible normalizer over a list, stopping at the first thrown
error, as `Array.prototype.map` does when the callback throws. -/
def mapE (f : JsonV → Except JStr JsonV) : List JsonV → Except JStr (List JsonV)
  | [] => .ok []
  | x :: t =>
    match f x with
    | .error m => .error m
    | .ok y =>
      match mapE f t with
      | .error m => .error m
      | .ok ys => .ok (y :: ys)

/-- The landing branch of the handler: shape check on `intro`/`sections`,
then `sections.slice(0, 8).map(...)` with the result assigned back. -/
def landingBranch (p : JsonV) : PostResult :=
  match jProp p "intro", jProp p "sections" with
  | some (.str _), some (.arr secs) =>
    match mapE normSectionJ (secs.take 8) with
    | .error m => .fail 500 (.caught m)
    | .ok ys => .ok (objSet p "sections" (.arr ys))
  | _, _ => .fail 502 (.landingShape p)

/-- Normalize one string-list entry: `String(x).trim()`. -/
def strNorm (x : JsonV) : JsonV := .str (jsTrim (jsToString x))

/-- `.map((s) => String(s).trim())` over a list of JSON values. -/
def strNormAll (l : List JsonV) : List JsonV := l.map strNorm

/-- `.map((s) => String(s).trim()).filter(Boolean)` over a list. -/
def strNormFilter (l : List JsonV) : List JsonV := (l.map strNorm).filter jTruthy

/-- Per-ingredient-group normalization:
`group: g.group ? String(g.group).trim() : undefined` (an `undefined` group is
omitted from the literal) and
`items: Array.isArray(g.items) ? g.items.map(i => String(i).trim()).filter(Boolean) : []`.
A `null` group element throws. -/
def normGroupJ (g : JsonV) : Except JStr JsonV :=
  match hAccess g "group" with
  | .error m => .error m
  | .ok gv =>
    let items : List JsonV :=
      match jProp g "items" with
      | some (.arr xs) => strNormFilter xs
      | _ => []
    .ok (match gv with
      | some v =>
        if jTruthy v then .obj [("group", .str (jsTrim (jsToString v))), ("items", .arr items)]
        else .obj [("items", .arr items)]
      | none => .obj [("items", .arr items)])

/-- Normalization of `used_ingredients` / `suggested_additions`:
`(field ?? []).map(s => String(s).trim())`; calling `.map` on a non-array,
non-nullish value throws. -/
def recNormUS (v : Option JsonV) : Except JStr (List JsonV) :=
  match v with
  | none => .ok []
  | some .null => .ok []
  | some (.arr xs) => .ok (strNormAll xs)
  | some _ => .error typeErrMsg

/-- The first three field assignments of the recipe normalization (title,
ingredients, steps). -/
def recipeCore (p : JsonV) (t : JStr) (gs2 ss : List JsonV) : JsonV :=
  objSet (objSet (objSet p "title" (.str (jsTrim t))) "ingredients" (.arr gs2))
    "steps" (.arr (strNormFilter ss))

/-- The conditional intro assignment `if (parsed.intro) parsed.intro = ...`,
reading the intro of the original object `p0` and assigning on `p3`. -/
def recipeIntroStep (p0 p3 : JsonV) : JsonV :=
  match jProp p0 "intro" with
  | some v => if jTruthy v then objSet p3 "intro" (.str (jsTrim (jsToString v))) else p3
  | none => p3

/-- Reassemble the recipe object after normalization: the sequence of field
assignments the code performs on `parsed` (title, ingredients, steps, the
conditional intro, then the two defaulted lists). -/
def recipeAssemble (p : JsonV) (t : JStr) (gs2 : List JsonV) (ss : List JsonV)
    (us sa : List JsonV) : JsonV :=
  objSet (objSet (recipeIntroStep p (recipeCore p t gs2 ss)) "used_ingredients" (.arr us))
    "suggested_additions" (.arr sa)

/-- The recipe branch of the handler: shape check on `title`/`ingredients`/
`steps`, then the in-place normalization; a throw from any of the maps is
caught by the route's outer `catch`. -/
def recipeBranch (p : JsonV) : PostResult :=
  match jProp p "title", jProp p "ingredients", jProp p "steps" with
  | some (.str t), some (.arr gs), some (.arr ss) =>
    match mapE normGroupJ gs with
    | .error m => .fail 500 (.caught m)
    | .ok gs2 =>
      match recNormUS (jProp p "used_ingredients"), recNormUS (jProp p "suggested_additions") with
      | .error m, _ => .fail 500 (.caught m)
      | .ok _, .error m => .fail 500 (.caught m)
      | .ok us, .ok sa => .ok (recipeAssemble p t gs2 ss us sa)
  | _, _, _ => .fail 502 (.recipeShape p)

/-- Dispatch on `parsed.mode`: reading `.mode` of `null` throws; the two
string tags select their branches; anything else is the unknown-mode 502. -/
def handleParsed (parsed : JsonV) : PostResult :=
  match parsed with
  | .null => .fail 500 (.caught typeErrMsg)
  | p =>
    match jProp p "mode" with
    | some (.str m) =>
      if m = modeLanding then landingBranch p
      else if m = modeRecipe then recipeBranch p
      else .fail 502 (.unknownMode p)
    | _ => .fail 502 (.unknownMode p)

/-- Handle the completion text: run the extraction regex, then `JSON.parse`
(its failure is the "Invalid JSON from model" 502 carrying the — possibly
replaced — raw text), then the mode dispatch. -/
def handleCompletion (raw0 : JStr) : PostResult :=
  let raw := extractJson raw0
  match jsonParse raw with
  | none => .fail 502 (.invalidModelJson raw)
  | some parsed => handleParsed parsed

/-- Optional-chaining property read: `v?.k`. -/
def oProp (v : Option JsonV) (k : String) : Option JsonV :=
  match v with
  | some (.obj fs) => lookupF fs k
  | _ => none

/-- Optional-chaining index read `v?.[i]` (arrays index their elements;
strings index to one-character strings). -/
def oIndex (v : Option JsonV) (i : Nat) : Option JsonV :=
  match v with
  | some (.arr xs) => xs[i]?
  | some (.str s) => (s[i]?).map (fun c => .str [c])
  | _ => none

/-- The navigation `data?.choices?.[0]?.message?.content`. -/
def contentChain (data : JsonV) : Option JsonV :=
  oProp (oProp (oIndex (oProp (some data) "choices") 0) "message") "content"

/-- `let raw = data?.choices?.[0]?.message?.content ?? ""` followed by the
`raw.match(...)` call: a nullish chain result defaults to the empty string,
while a non-string completion makes `raw.match` throw. -/
def rawOf (data : JsonV) : Except JStr JStr :=
  match contentChain data with
  | none => .ok []
  | some .null => .ok []
  | some (.str s) => .ok s
  | some _ => .error typeErrMsg

/-- Handle the provider's decoded envelope. -/
def handleEnvelope (data : JsonV) : PostResult :=
  match rawOf data with
  | .error m => .fail 500 (.caught m)
  | .ok raw => handleCompletion raw

/-- A stubbed provider HTTP response: status and body text. -/
structure FwResp where
  status : Nat
  body : JStr

/-- `Response.ok`: status in the 2xx range. -/
def respOk (r : FwResp) : Bool := decide (200 ≤ r.status) && decide (r.status ≤ 299)

/-- The retry classification of `fwFetchWithRetry`: 429 or any 5xx. -/
def retryable (st : Nat) : Bool := st == 429 || (decide (500 ≤ st) && decide (st < 600))

/-- Result of the retry loop: a response (with the number of attempts made
and the backoff delays slept), or the thrown `Error` after exhaustion. -/
inductive FwOutcome where
  | resp (r : FwResp) (attempts : Nat) (delays : List Nat)
  | thrown (msg : JStr) (attempts : Nat) (delays : List Nat)

/-- The message used when no retryable body was ever captured. -/
def fwDefaultMsg : JStr := jstr "Fireworks retry failed"

/-- The loop body of `fwFetchWithRetry`: attempt `i`, with `rem` attempts
remaining, the last captured retryable body, and the delays slept so far.
An ok or non-retryable response returns immediately; a retryable one sleeps
`300 * 2^i`, captures the body and continues; exhaustion throws. -/
def fwGo (stub : Nat → FwResp) (i : Nat) (lastErr : Option JStr) (delays : List Nat) :
    Nat → FwOutcome
  | 0 => .thrown (lastErr.getD fwDefaultMsg) i delays
  | Nat.succ rem =>
    let r := stub i
    if respOk r then .resp r (i + 1) delays
    else if retryable r.status then
      fwGo stub (i + 1) (some r.body) (delays ++ [300 * 2 ^ i]) rem
    else .resp r (i + 1) delays

/-- `fwFetchWithRetry(url, init, tries)` against a stubbed transport: the
response of attempt `i` is `stub i`. -/
def fwFetchWithRetry (stub : Nat → FwResp) (tries : Nat) : FwOutcome :=
  fwGo stub 0 none [] tries

/-- The `POST` handler from the provider call onward, against a stubbed
transport: a thrown retry exhaustion is caught by the outer `catch` (a 500
carrying `err.message`); a non-ok response is the "Fireworks error" 502 with
the body as details; an ok response is decoded (`res.json()`, whose
`SyntaxError` the outer catch also turns into a 500) and handled. -/
def POST_model (stub : Nat → FwResp) : PostResult :=
  match fwFetchWithRetry stub 3 with
  | .thrown msg _ _ => .fail 500 (.caught msg)
  | .resp r _ _ =>
    if respOk r then
      match jsonParse r.body with
      | none => .fail 500 (.caught (jstr "SyntaxError"))
      | some env => handleEnvelope env
    else .fail 502 (.fireworksError r.body)

/-- Dropping a prefix twice is the same as dropping it once. -/
theorem dropWhileIdem (p : Char → Bool) (l : JStr) :
    (l.dropWhile p).dropWhile p = l.dropWhile p := by
  induction l with
  | nil => rfl
  | cons a t ih =>
    by_cases h : p a
    · simp only [List.dropWhile_cons, h, if_true]
      exact ih
    · simp [List.dropWhile_cons, h]

/-- If `dropWhile` leaves a list starting with `a`, the predicate fails on `a`. -/
theorem dropWhileSelfHead (p : Char → Bool) (a : Char) (t : JStr)
    (h : (a :: t).dropWhile p = a :: t) : p a = false := by
  by_cases hp : p a
  · exfalso
    simp only [List.dropWhile_cons, hp, if_true] at h
    have := lengthDropWhileLe p t
    have := congrArg List.length h
    simp at this
    omega
  · simpa using hp

/-- A list `dropWhile` leaves unchanged stays unchanged after dropping any prefix
of material from its tail side: formally, every prefix of such a list is also
left unchanged by `dropWhile`. -/
theorem dropWhileSelfOfAppend (p : Char → Bool) (x rest : JStr)
    (h : (x ++ rest).dropWhile p = x ++ rest) : x.dropWhile p = x := by
  cases x with
  | nil => rfl
  | cons a t =>
    have ha : p a = false := dropWhileSelfHead p a (t ++ rest) (by simpa using h)
    simp [List.dropWhile_cons, ha]

/-- `jsTrim` output has no leading whitespace. -/
theorem dropWhileJsTrim (l : JStr) : (jsTrim l).dropWhile isWsJS = jsTrim l := by
  unfold jsTrim
  set m := l.dropWhile isWsJS with hm
  have hmself : m.dropWhile isWsJS = m := by
    rw [hm]; exact dropWhileIdem isWsJS l
  have hsplit : m = (m.reverse.dropWhile isWsJS).reverse ++ (m.reverse.takeWhile isWsJS).reverse := by
    conv_lhs => rw [← List.reverse_reverse m]
    rw [← List.reverse_append, List.takeWhile_append_dropWhile]
  exact dropWhileSelfOfAppend isWsJS _ _ (by rw [← hsplit]; exact hmself)

/-- Trimming is idempotent. -/
theorem jsTrimIdem (l : JStr) : jsTrim (jsTrim l) = jsTrim l := by
  show ((((jsTrim l).dropWhile isWsJS).reverse).dropWhile isWsJS).reverse = jsTrim l
  rw [dropWhileJsTrim l]
  have h2 : (jsTrim l).reverse = ((l.dropWhile isWsJS).reverse).dropWhile isWsJS := by
    unfold jsTrim; rw [List.reverse_reverse]
  rw [h2, dropWhileIdem]
  rfl

/-- Trimming the empty string gives the empty string. -/
theorem jsTrimNil : jsTrim [] = [] := rfl

/-- Valid-range fact: `Char.ofNat` of a scalar below the surrogate range
round-trips through `toNat`. -/
theorem charToNatOfNat (n : Nat) (h : n < 55296) : (Char.ofNat n).toNat = n := by
  unfold Char.ofNat
  rw [dif_pos (Or.inl (by exact_mod_cast h))]
  simp [Char.ofNatAux, Char.toNat, UInt32.ofNat', UInt32.toNat, BitVec.toNat_ofNatLt]

/-- `Char.toUpper` is idempotent. -/
theorem toUpperIdem (c : Char) : c.toUpper.toUpper = c.toUpper := by
  unfold Char.toUpper
  by_cases h : c.toNat ≥ 97 ∧ c.toNat ≤ 122
  · rw [if_pos h]
    have : (Char.ofNat (c.toNat - 32)).toNat = c.toNat - 32 := charToNatOfNat _ (by omega)
    rw [if_neg (by omega)]
  · rw [if_neg h, if_neg h]

/-- Comparing characters for equality is comparing code points. -/
theorem charEqToNat (c d : Char) : (c == d) = (c.toNat == d.toNat) := by
  by_cases h : c.toNat = d.toNat
  · have he : c = d := Char.ext (UInt32.toNat.inj h)
    simp [he]
  · have he : c ≠ d := fun hcd => h (congrArg Char.toNat hcd)
    simp [he, h]

/-- Membership of the whitespace class depends only on the code point. -/
theorem isWsToNat (c : Char) :
    isWsJS c = (c.toNat == 32 || c.toNat == 9 || c.toNat == 10 || c.toNat == 13 ||
      c.toNat == 11 || c.toNat == 12) := by
  unfold isWsJS
  rw [charEqToNat c (Char.ofNat 32), charEqToNat c (Char.ofNat 9),
    charEqToNat c (Char.ofNat 10), charEqToNat c (Char.ofNat 13),
    charEqToNat c (Char.ofNat 11), charEqToNat c (Char.ofNat 12)]
  rfl

/-- Upper-casing never creates or destroys whitespace. -/
theorem isWsToUpper (c : Char) : isWsJS c.toUpper = isWsJS c := by
  unfold Char.toUpper
  by_cases h : c.toNat ≥ 97 ∧ c.toNat ≤ 122
  · rw [if_pos h]
    have h2 : (Char.ofNat (c.toNat - 32)).toNat = c.toNat - 32 :=
      charToNatOfNat _ (by omega)
    have e1 : isWsJS (Char.ofNat (c.toNat - 32)) = false := by
      rw [isWsToNat, h2]; simp; omega
    have e2 : isWsJS c = false := by
      rw [isWsToNat]; simp; omega
    rw [e1, e2]
  · rw [if_neg h]

/-- Dropping whitespace commutes with upper-casing. -/
theorem dropWhileWsMapUpper (l : JStr) :
    (l.map Char.toUpper).dropWhile isWsJS = (l.dropWhile isWsJS).map Char.toUpper := by
  induction l with
  | nil => rfl
  | cons a t ih =>
    by_cases h : isWsJS a
    · simp [List.dropWhile_cons, isWsToUpper, h, ih]
    · simp [List.dropWhile_cons, isWsToUpper, h]

/-- Trimming commutes with upper-casing. -/
theorem jsUpperTrim (l : JStr) : jsUpper (jsTrim l) = jsTrim (jsUpper l) := by
  unfold jsTrim jsUpper
  rw [dropWhileWsMapUpper, ← List.map_reverse, dropWhileWsMapUpper, ← List.map_reverse]

/-- Upper-casing is idempotent. -/
theorem jsUpperIdem (l : JStr) : jsUpper (jsUpper l) = jsUpper l := by
  unfold jsUpper
  rw [List.map_map]
  exact List.map_congr_left (fun a _ => toUpperIdem a)

/-- The normalized section title is a fixed point of the normalization. -/
theorem titleNormIdem (t : JStr) :
    jsTrim (jsUpper (jsTrim (jsUpper t))) = jsTrim (jsUpper t) := by
  rw [jsUpperTrim, jsUpperIdem, jsTrimIdem]

/-- A derived section url starts with a slash. -/
theorem leadSlashStem (x : JStr) : leadSlash (recipesStem ++ x) = true := rfl

/-- Reading back the field just assigned. -/
theorem lookupSetSelf (fs : List (String × JsonV)) (k : String) (v : JsonV) :
    lookupF (setField fs k v) k = some v := by
  induction fs with
  | nil => simp [setField, lookupF]
  | cons h t ih =>
    obtain ⟨k2, w⟩ := h
    by_cases hk : k2 = k
    · simp [setField, hk, lookupF]
    · simp [setField, hk, lookupF, ih]

/-- Assignment to one key leaves the other keys' values unchanged. -/
theorem lookupSetNe (fs : List (String × JsonV)) (k k2 : String) (v : JsonV)
    (h : k2 ≠ k) : lookupF (setField fs k v) k2 = lookupF fs k2 := by
  induction fs with
  | nil => simp [setField, lookupF, h, Ne.symm h]
  | cons hd t ih =>
    obtain ⟨k3, w⟩ := hd
    by_cases hk : k3 = k
    · subst hk
      simp [setField, lookupF, h, Ne.symm h]
    · simp [setField, hk, lookupF, ih]

/-- Re-assigning the value a key already holds is a no-op. -/
theorem setFieldId (fs : List (String × JsonV)) (k : String) (v : JsonV)
    (h : lookupF fs k = some v) : setField fs k v = fs := by
  induction fs with
  | nil => simp [lookupF] at h
  | cons hd t ih =>
    obtain ⟨k2, w⟩ := hd
    by_cases hk : k2 = k
    · subst hk
      simp [lookupF] at h
      simp [setField, h]
    · simp [lookupF, hk] at h
      simp [setField, hk, ih h]

/-- Property read after a property write on an object, same key. -/
theorem jPropObjSetSelf (fs : List (String × JsonV)) (k : String) (v : JsonV) :
    jProp (objSet (.obj fs) k v) k = some v := by
  simp [objSet, jProp, lookupSetSelf]

/-- Property read after a property write on an object, different key. -/
theorem jPropObjSetNe (p : JsonV) (k k2 : String) (v : JsonV) (h : k2 ≠ k) :
    jProp (objSet p k v) k2 = jProp p k2 := by
  cases p <;> simp [objSet, jProp]
  exact lookupSetNe _ _ _ _ h

/-- A successful `mapE` preserves the list length. -/
theorem mapELength (f : JsonV → Except JStr JsonV) (l : List JsonV) (ys : List JsonV)
    (h : mapE f l = .ok ys) : ys.length = l.length := by
  induction l generalizing ys with
  | nil => simp [mapE] at h; simp [← h]
  | cons x t ih =>
    simp only [mapE] at h
    cases hf : f x with
    | error m => rw [hf] at h; exact absurd h (by simp)
    | ok y =>
      rw [hf] at h
      cases ht : mapE f t with
      | error m => rw [ht] at h; exact absurd h (by simp)
      | ok ys2 =>
        rw [ht] at h
        simp at h
        subst h
        simp [ih ys2 ht]

/-- Every element of a successful `mapE` output is a success of `f`. -/
theorem mapEMem (f : JsonV → Except JStr JsonV) (l : List JsonV) (ys : List JsonV)
    (h : mapE f l = .ok ys) : ∀ y ∈ ys, ∃ x ∈ l, f x = .ok y := by
  induction l generalizing ys with
  | nil =>
    simp [mapE] at h
    subst h
    simp
  | cons x t ih =>
    simp only [mapE] at h
    cases hf : f x with
    | error m => rw [hf] at h; exact absurd h (by simp)
    | ok y =>
      rw [hf] at h
      cases ht : mapE f t with
      | error m => rw [ht] at h; exact absurd h (by simp)
      | ok ys2 =>
        rw [ht] at h
        simp at h
        subst h
        intro z hz
        rcases List.mem_cons.mp hz with hz | hz
        · subst hz
          exact ⟨x, by simp, hf⟩
        · obtain ⟨x2, hx2, hfx2⟩ := ih ys2 ht z hz
          exact ⟨x2, by simp [hx2], hfx2⟩

/-- If `f` fixes every element, `mapE f` returns the list unchanged. -/
theorem mapEFix (f : JsonV → Except JStr JsonV) (l : List JsonV)
    (h : ∀ x ∈ l, f x = .ok x) : mapE f l = .ok l := by
  induction l with
  | nil => rfl
  | cons x t ih =>
    simp only [mapE]
    rw [h x (by simp), ih (fun y hy => h y (by simp [hy]))]

/-- Elements of `strNormFilter` output are trimmed non-empty strings. -/
theorem memStrNormFilter (l : List JsonV) (x : JsonV) (h : x ∈ strNormFilter l) :
    ∃ s : JStr, x = .str s ∧ jsTrim s = s ∧ s ≠ [] := by
  unfold strNormFilter at h
  have hmem := List.mem_of_mem_filter h
  have htr := List.of_mem_filter h
  obtain ⟨y, _, hy⟩ := List.mem_map.mp hmem
  refine ⟨jsTrim (jsToString y), by rw [← hy]; rfl, jsTrimIdem _, ?_⟩
  rw [← hy] at htr
  simp [strNorm, jTruthy] at htr
  simpa using htr

/-- Elements of `strNormAll` output are trimmed strings. -/
theorem memStrNormAll (l : List JsonV) (x : JsonV) (h : x ∈ strNormAll l) :
    ∃ s : JStr, x = .str s ∧ jsTrim s = s := by
  unfold strNormAll at h
  obtain ⟨y, _, hy⟩ := List.mem_map.mp h
  exact ⟨jsTrim (jsToString y), by rw [← hy]; rfl, jsTrimIdem _⟩

/-- Renormalizing an already-normalized string list is the identity. -/
theorem strNormAllFix (l : List JsonV) : strNormAll (strNormAll l) = strNormAll l := by
  unfold strNormAll
  rw [List.map_map]
  refine List.map_congr_left (fun a _ => ?_)
  simp [Function.comp, strNorm, jsToString, jsTrimIdem]

/-- Renormalizing an already-filtered normalized string list is the identity. -/
theorem strNormFilterFix (l : List JsonV) :
    strNormFilter (strNormFilter l) = strNormFilter l := by
  have hmap : List.map strNorm (strNormFilter l) = strNormFilter l := by
    have hcongr : List.map strNorm (strNormFilter l) = List.map id (strNormFilter l) := by
      refine List.map_congr_left (fun a ha => ?_)
      obtain ⟨s, hs, htrim, _⟩ := memStrNormFilter l a ha
      subst hs
      simp [strNorm, jsToString, htrim]
    rw [hcongr, List.map_id]
  show List.filter jTruthy (List.map strNorm (strNormFilter l)) = strNormFilter l
  rw [hmap]
  refine List.filter_eq_self.mpr (fun a ha => ?_)
  obtain ⟨s, hs, _, hne⟩ := memStrNormFilter l a ha
  subst hs
  simpa [jTruthy] using hne

/-- A property that reads back a value forces the carrier to be an object. -/
theorem jPropSomeIsObj (s : JsonV) (k : String) (w : JsonV) (h : jProp s k = some w) :
    ∃ fs, s = .obj fs := by
  cases s <;> simp [jProp] at h
  exact ⟨_, rfl⟩

/-- `hAccess` on an object is a plain lookup. -/
theorem hAccessObj (fs : List (String × JsonV)) (k : String) :
    hAccess (.obj fs) k = .ok (lookupF fs k) := rfl

/-- A successful `sectionUrl` always yields a slash-leading url. -/
theorem sectionUrlLead (s : JsonV) (title u : JStr) (h : sectionUrl s title = .ok u) :
    leadSlash u = true := by
  unfold sectionUrl at h
  split at h
  · rename_i u0 hu0
    by_cases hl : leadSlash u0
    · simp [hl] at h; rw [← h]; exact hl
    · simp [hl] at h; rw [← h]; exact leadSlashStem _
  · simp at h; rw [← h]; exact leadSlashStem _
  · simp at h; rw [← h]; exact leadSlashStem _
  · exact absurd h (by simp)

/-- A successful `sectionTeaser` is already trimmed. -/
theorem sectionTeaserTrim (s : JsonV) (te : JStr) (h : sectionTeaser s = .ok te) :
    jsTrim te = te := by
  unfold sectionTeaser at h
  split at h
  · simp at h; rw [← h]; exact jsTrimIdem _
  · simp at h; subst h; exact jsTrimNil
  · simp at h; subst h; exact jsTrimNil
  · exact absurd h (by simp)

/-- Successful section normalization: the input title was a string, and the
output is a section literal with normalized title, trimmed teaser, and a
slash-leading url. -/
theorem normSectionShape (s y : JsonV) (h : normSectionJ s = .ok y) :
    ∃ t0 te u, jProp s "title" = some (.str t0) ∧
      y = secObj (jsTrim (jsUpper t0)) te u ∧ jsTrim te = te ∧ leadSlash u = true := by
  unfold normSectionJ at h
  split at h
  · exact absurd h (by simp)
  · rename_i t0 heq
    have hobj : jProp s "title" = some (.str t0) := by
      cases s <;> simp_all [hAccess, jProp]
    split at h
    · exact absurd h (by simp)
    · rename_i url hurl
      split at h
      · exact absurd h (by simp)
      · rename_i te hte
        simp at h
        exact ⟨t0, te, url, hobj, h.symm, sectionTeaserTrim s te hte, sectionUrlLead s _ url hurl⟩
  · exact absurd h (by simp)

/-- The output of a successful section normalization is itself a fixed point
of section normalization. -/
theorem normSectionFixed (s y : JsonV) (h : normSectionJ s = .ok y) :
    normSectionJ y = .ok y := by
  obtain ⟨t0, te, u, _, hy, hte, hu⟩ := normSectionShape s y h
  subst hy
  simp [normSectionJ, secObj, hAccess, lookupF, sectionUrl, jProp, sectionTeaser,
    hu, hte, titleNormIdem]

/-- Successful group normalization: the output is a group literal whose
`group`, when present, is trimmed, and whose `items` list is a fixed point of
the item normalization. -/
theorem normGroupShape (g y : JsonV) (h : normGroupJ g = .ok y) :
    (∃ gs its, y = .obj [("group", .str gs), ("items", .arr its)] ∧
      jsTrim gs = gs ∧ strNormFilter its = its) ∨
    (∃ its, y = .obj [("items", .arr its)] ∧ strNormFilter its = its) := by
  unfold normGroupJ at h
  split at h
  · exact absurd h (by simp)
  · rename_i gv heq
    have hitems : ∀ its, (match jProp g "items" with
        | some (.arr xs) => strNormFilter xs
        | _ => []) = its → strNormFilter its = its := by
      intro its hits
      split at hits
      · rw [← hits]; exact strNormFilterFix _
      · rw [← hits]; rfl
    simp only [Except.ok.injEq] at h
    split at h
    · rename_i v
      by_cases htr : jTruthy v
      · simp only [htr, if_true] at h
        refine .inl ⟨jsTrim (jsToString v), _, h.symm, jsTrimIdem _, hitems _ rfl⟩
      · simp only [htr, if_false] at h
        exact .inr ⟨_, h.symm, hitems _ rfl⟩
    · exact .inr ⟨_, h.symm, hitems _ rfl⟩

/-- A normalized group whose `group` text is not the empty string is a fixed
point of group normalization.  (A whitespace-only source group normalizes to
the empty string, which is falsy and is dropped on a second pass.) -/
theorem normGroupFixed (g y : JsonV) (h : normGroupJ g = .ok y)
    (hne : jProp y "group" ≠ some (.str [])) : normGroupJ y = .ok y := by
  rcases normGroupShape g y h with ⟨gs, its, hy, htrim, hfix⟩ | ⟨its, hy, hfix⟩
  · subst hy
    have hgs : gs ≠ [] := by
      intro hnil
      subst hnil
      exact hne (by simp [jProp, lookupF])
    simp [normGroupJ, hAccess, lookupF, jProp, jTruthy, hgs, jsToString, htrim, hfix]
  · subst hy
    simp [normGroupJ, hAccess, lookupF, jProp, jTruthy, hfix]

/-- Inversion of a successful landing branch. -/
theorem landingInv (p body : JsonV) (h : landingBranch p = .ok body) :
    ∃ iv secs ys, jProp p "intro" = some (.str iv) ∧
      jProp p "sections" = some (.arr secs) ∧
      mapE normSectionJ (secs.take 8) = .ok ys ∧
      body = objSet p "sections" (.arr ys) := by
  unfold landingBranch at h
  split at h
  · rename_i iv secs hiv hsecs
    split at h
    · exact absurd h (by simp)
    · rename_i ys hys
      simp at h
      exact ⟨iv, secs, ys, hiv, hsecs, hys, h.symm⟩
  · exact absurd h (by simp)

/-- Inversion of a successful recipe branch. -/
theorem recipeInv (p body : JsonV) (h : recipeBranch p = .ok body) :
    ∃ t gs ss gs2 us sa, jProp p "title" = some (.str t) ∧
      jProp p "ingredients" = some (.arr gs) ∧
      jProp p "steps" = some (.arr ss) ∧
      mapE normGroupJ gs = .ok gs2 ∧
      recNormUS (jProp p "used_ingredients") = .ok us ∧
      recNormUS (jProp p "suggested_additions") = .ok sa ∧
      body = recipeAssemble p t gs2 ss us sa := by
  unfold recipeBranch at h
  split at h
  · rename_i t gs ss ht hgs hss
    split at h
    · exact absurd h (by simp)
    · rename_i gs2 hgs2
      split at h
      · exact absurd h (by simp)
      · exact absurd h (by simp)
      · rename_i us sa hus hsa
        simp at h
        exact ⟨t, gs, ss, gs2, us, sa, ht, hgs, hss, hgs2, hus, hsa, h.symm⟩
  · exact absurd h (by simp)

/-- Inversion of a successful mode dispatch: the parsed value is an object
whose `mode` is one of the two tags, and the matching branch succeeded. -/
theorem handleParsedInv (p body : JsonV) (h : handleParsed p = .ok body) :
    (jProp p "mode" = some (.str modeLanding) ∧ landingBranch p = .ok body) ∨
    (jProp p "mode" = some (.str modeRecipe) ∧ recipeBranch p = .ok body) := by
  unfold handleParsed at h
  split at h
  · exact absurd h (by simp)
  · rename_i p2 hnull
    split at h
    · rename_i m hm
      by_cases hl : m = modeLanding
      · rw [if_pos hl] at h
        subst hl
        exact .inl ⟨hm, h⟩
      · rw [if_neg hl] at h
        by_cases hr : m = modeRecipe
        · rw [if_pos hr] at h
          subst hr
          exact .inr ⟨hm, h⟩
        · rw [if_neg hr] at h
          exact absurd h (by simp)
    · exact absurd h (by simp)

/-- A successful `recNormUS` output is a fixed point of `strNormAll`. -/
theorem recNormUSFix (v : Option JsonV) (l : List JsonV) (h : recNormUS v = .ok l) :
    strNormAll l = l := by
  unfold recNormUS at h
  split at h
  · simp at h; subst h; rfl
  · simp at h; subst h; rfl
  · simp at h; rw [← h]; exact strNormAllFix _
  · exact absurd h (by simp)

/-- Every element of a successful `recNormUS` output is a trimmed string. -/
theorem recNormUSMem (v : Option JsonV) (l : List JsonV) (h : recNormUS v = .ok l) :
    ∀ x ∈ l, ∃ s : JStr, x = .str s ∧ jsTrim s = s := by
  unfold recNormUS at h
  split at h
  · simp at h; subst h; simp
  · simp at h; subst h; simp
  · simp at h
    rw [← h]
    intro x hx
    exact memStrNormAll _ x hx
  · exact absurd h (by simp)

/-- The six fields the recipe branch rewrites. -/
def recipeKeys : List String :=
  ["title", "intro", "ingredients", "steps", "used_ingredients", "suggested_additions"]

/-- The field map of the assembled recipe object: the six rewritten fields
take their normalized values (the conditional `intro` per its truthiness) and
every other field reads through to the original object. -/
theorem recipeAssembleProp (fs : List (String × JsonV)) (t : JStr)
    (gs2 ss us sa : List JsonV) :
    jProp (recipeAssemble (.obj fs) t gs2 ss us sa) "title" = some (.str (jsTrim t)) ∧
    jProp (recipeAssemble (.obj fs) t gs2 ss us sa) "ingredients" = some (.arr gs2) ∧
    jProp (recipeAssemble (.obj fs) t gs2 ss us sa) "steps" = some (.arr (strNormFilter ss)) ∧
    jProp (recipeAssemble (.obj fs) t gs2 ss us sa) "used_ingredients" = some (.arr us) ∧
    jProp (recipeAssemble (.obj fs) t gs2 ss us sa) "suggested_additions" = some (.arr sa) ∧
    (∀ k, k ∉ recipeKeys →
      jProp (recipeAssemble (.obj fs) t gs2 ss us sa) k = lookupF fs k) ∧
    jProp (recipeAssemble (.obj fs) t gs2 ss us sa) "intro" =
      (match lookupF fs "intro" with
        | some v => if jTruthy v then some (.str (jsTrim (jsToString v))) else some v
        | none => none) := by
  unfold recipeAssemble recipeIntroStep recipeCore
  cases hintro : jProp (JsonV.obj fs) "intro" with
  | none =>
    rw [jProp] at hintro
    refine ⟨?_, ?_, ?_, ?_, ?_, ?_, ?_⟩ <;>
      simp [hintro, jProp, objSet, lookupSetSelf, lookupSetNe]
    intro k hk
    simp only [recipeKeys, List.mem_cons, List.mem_nil_iff, not_or, not_false_iff,
        and_true, or_false] at hk
    obtain ⟨h1, h2, h3, h4, h5, h6⟩ := hk
    rw [lookupSetNe _ _ _ _ h6, lookupSetNe _ _ _ _ h5, lookupSetNe _ _ _ _ h4,
      lookupSetNe _ _ _ _ h3, lookupSetNe _ _ _ _ h1]
  | some v =>
    rw [jProp] at hintro
    by_cases htr : jTruthy v
    · refine ⟨?_, ?_, ?_, ?_, ?_, ?_, ?_⟩ <;>
        simp [hintro, htr, jProp, objSet, lookupSetSelf, lookupSetNe]
      intro k hk
      simp only [recipeKeys, List.mem_cons, List.mem_nil_iff, not_or, not_false_iff,
        and_true, or_false] at hk
      obtain ⟨h1, h2, h3, h4, h5, h6⟩ := hk
      rw [lookupSetNe _ _ _ _ h6, lookupSetNe _ _ _ _ h5, lookupSetNe _ _ _ _ h2,
        lookupSetNe _ _ _ _ h4, lookupSetNe _ _ _ _ h3, lookupSetNe _ _ _ _ h1]
    · refine ⟨?_, ?_, ?_, ?_, ?_, ?_, ?_⟩ <;>
        simp [hintro, htr, jProp, objSet, lookupSetSelf, lookupSetNe]
      intro k hk
      simp only [recipeKeys, List.mem_cons, List.mem_nil_iff, not_or, not_false_iff,
        and_true, or_false] at hk
      obtain ⟨h1, h2, h3, h4, h5, h6⟩ := hk
      rw [lookupSetNe _ _ _ _ h6, lookupSetNe _ _ _ _ h5, lookupSetNe _ _ _ _ h4,
        lookupSetNe _ _ _ _ h3, lookupSetNe _ _ _ _ h1]

/-- Dispatching on an object with a known string mode. -/
theorem handleParsedObjMode (fs2 : List (String × JsonV)) (m : JStr)
    (hm : lookupF fs2 "mode" = some (.str m)) :
    handleParsed (.obj fs2) =
      (if m = modeLanding then landingBranch (.obj fs2)
       else if m = modeRecipe then recipeBranch (.obj fs2)
       else .fail 502 (.unknownMode (.obj fs2))) := by
  simp [handleParsed, jProp, hm]

/-- An already-assembled recipe object is a fixed point of reassembly, as long
as its fields carry their own normalized values. -/
theorem recipeAssembleFixed (fs2 : List (String × JsonV)) (t : JStr)
    (gs2 ss2 us sa : List JsonV)
    (hT : lookupF fs2 "title" = some (.str (jsTrim t)))
    (hI : lookupF fs2 "ingredients" = some (.arr gs2))
    (hS : lookupF fs2 "steps" = some (.arr ss2))
    (hSS : strNormFilter ss2 = ss2)
    (hU : lookupF fs2 "used_ingredients" = some (.arr us))
    (hA : lookupF fs2 "suggested_additions" = some (.arr sa))
    (hIn : lookupF fs2 "intro" = none ∨
      (∃ v, lookupF fs2 "intro" = some v ∧ jTruthy v = false) ∨
      (∃ s : JStr, lookupF fs2 "intro" = some (.str s) ∧ jsTrim s = s)) :
    recipeAssemble (.obj fs2) (jsTrim t) gs2 ss2 us sa = .obj fs2 := by
  have e1 : objSet (.obj fs2) "title" (.str (jsTrim (jsTrim t))) = .obj fs2 := by
    rw [jsTrimIdem]
    simp [objSet, setFieldId fs2 _ _ hT]
  have e2 : objSet (.obj fs2) "ingredients" (.arr gs2) = .obj fs2 := by
    simp [objSet, setFieldId fs2 _ _ hI]
  have e3 : objSet (.obj fs2) "steps" (.arr (strNormFilter ss2)) = .obj fs2 := by
    rw [hSS]
    simp [objSet, setFieldId fs2 _ _ hS]
  have e5 : objSet (.obj fs2) "used_ingredients" (.arr us) = .obj fs2 := by
    simp [objSet, setFieldId fs2 _ _ hU]
  have e6 : objSet (.obj fs2) "suggested_additions" (.arr sa) = .obj fs2 := by
    simp [objSet, setFieldId fs2 _ _ hA]
  have e4 : (match jProp (JsonV.obj fs2) "intro" with
      | some v => if jTruthy v then objSet (.obj fs2) "intro" (.str (jsTrim (jsToString v)))
                  else (JsonV.obj fs2)
      | none => (JsonV.obj fs2)) = .obj fs2 := by
    rcases hIn with hIn | ⟨v, hIn, hfalse⟩ | ⟨s, hIn, htrim⟩
    · simp [jProp, hIn]
    · simp [jProp, hIn, hfalse]
    · simp only [jProp, hIn]
      by_cases hne : s = []
      · subst hne
        simp [jTruthy]
      · have : jTruthy (.str s) = true := by simpa [jTruthy] using hne
        simp only [this, if_true]
        simp [jsToString, htrim, objSet, setFieldId fs2 _ _ hIn]
  unfold recipeAssemble recipeIntroStep recipeCore
  rw [e1, e2, e3, e4, e5, e6]

/-- C8 (amended): re-normalizing a successfully normalized payload returns it
unchanged, provided no ingredient group normalized to the empty string (a
whitespace-only source group produces an empty-string `group` field, which is
falsy and is dropped — not kept — by a second pass; see the counterexample). -/
theorem c8NormalizationIdempotent (fs : List (String × JsonV)) (body : JsonV)
    (h : handleParsed (.obj fs) = .ok body)
    (hgr : ∀ gl, jProp body "ingredients" = some (.arr gl) →
      ∀ g ∈ gl, jProp g "group" ≠ some (.str [])) :
    handleParsed body = .ok body := by
  rcases handleParsedInv _ _ h with ⟨hm, hlb⟩ | ⟨hm, hrb⟩
  · obtain ⟨iv, secs, ys, hiv, hsecs, hys, hbody⟩ := landingInv _ _ hlb
    have hlen : ys.length ≤ 8 := by
      rw [mapELength _ _ _ hys, List.length_take]
      exact Nat.min_le_left _ _
    have hfix : mapE normSectionJ ys = .ok ys := by
      refine mapEFix _ _ (fun y hy => ?_)
      obtain ⟨x, _, hx⟩ := mapEMem _ _ _ hys y hy
      exact normSectionFixed x y hx
    rw [jProp] at hm hiv hsecs
    subst hbody
    show handleParsed (.obj (setField fs "sections" (.arr ys))) = _
    have hmode2 : lookupF (setField fs "sections" (.arr ys)) "mode" =
        some (.str modeLanding) := by
      rw [lookupSetNe _ _ _ _ (by decide)]
      exact hm
    rw [handleParsedObjMode _ _ hmode2, if_pos rfl]
    unfold landingBranch
    rw [jProp, jProp, lookupSetNe _ _ _ _ (by decide), hiv, lookupSetSelf]
    simp only [List.take_of_length_le hlen, hfix]
    simp [objSet, setFieldId _ _ _ (lookupSetSelf fs "sections" (.arr ys))]
  · obtain ⟨t, gs, ss, gs2, us, sa, ht, hgs, hss, hgs2, hus, hsa, hbody⟩ := recipeInv _ _ hrb
    obtain ⟨hT, hI, hS, hU, hA, hFrame, hIntro⟩ := recipeAssembleProp fs t gs2 ss us sa
    rw [← hbody] at hT hI hS hU hA hFrame hIntro
    obtain ⟨fs2, hfs2⟩ := jPropSomeIsObj body "title" _ hT
    have hmode2 : jProp body "mode" = some (.str modeRecipe) := by
      rw [hFrame "mode" (by decide)]
      rw [jProp] at hm
      exact hm
    have hgfix : mapE normGroupJ gs2 = .ok gs2 := by
      refine mapEFix _ _ (fun g hgmem => ?_)
      obtain ⟨x, _, hx⟩ := mapEMem _ _ _ hgs2 g hgmem
      exact normGroupFixed x g hx (hgr gs2 hI g hgmem)
    have hu2 : recNormUS (jProp body "used_ingredients") = .ok us := by
      rw [hU]
      show Except.ok (strNormAll us) = _
      rw [recNormUSFix _ _ hus]
    have ha2 : recNormUS (jProp body "suggested_additions") = .ok sa := by
      rw [hA]
      show Except.ok (strNormAll sa) = _
      rw [recNormUSFix _ _ hsa]
    subst hfs2
    have hIn2 : lookupF fs2 "intro" = none ∨
        (∃ v, lookupF fs2 "intro" = some v ∧ jTruthy v = false) ∨
        (∃ s : JStr, lookupF fs2 "intro" = some (.str s) ∧ jsTrim s = s) := by
      have hIntro2 := hIntro
      rw [jProp] at hIntro2
      rcases hlook : lookupF fs "intro" with _ | v
      · rw [hlook] at hIntro2
        exact .inl hIntro2
      · rw [hlook] at hIntro2
        by_cases htr : jTruthy v
        · simp only [htr, if_true] at hIntro2
          exact .inr (.inr ⟨jsTrim (jsToString v), hIntro2, jsTrimIdem _⟩)
        · simp only [htr, if_false] at hIntro2
          exact .inr (.inl ⟨v, hIntro2, by simpa using htr⟩)
    rw [jProp] at hmode2
    rw [handleParsedObjMode _ _ hmode2, if_neg (by decide), if_pos rfl]
    unfold recipeBranch
    simp only [hT, hI, hS, hgfix, hu2, ha2]
    rw [jProp] at hT hI hS hU hA
    rw [recipeAssembleFixed fs2 t gs2 (strNormFilter ss) us sa hT hI hS
      (strNormFilterFix ss) hU hA hIn2]

/-- Input for the C8 counterexample: a recipe whose ingredient group is
whitespace-only. -/
def c8FsIn : List (String × JsonV) :=
  [("mode", .str (jstr "recipe")), ("title", .str (jstr "Soup")),
   ("ingredients", .arr [.obj [("group", .str (jstr "  ")),
     ("items", .arr [.str (jstr "salt")])]]),
   ("steps", .arr [.str (jstr "Mix.")])]

/-- First normalization of `c8FsIn`: the group trims to the empty string. -/
def c8Body1 : JsonV :=
  .obj [("mode", .str (jstr "recipe")), ("title", .str (jstr "Soup")),
    ("ingredients", .arr [.obj [("group", .str []),
      ("items", .arr [.str (jstr "salt")])]]),
    ("steps", .arr [.str (jstr "Mix.")]),
    ("used_ingredients", .arr []), ("suggested_additions", .arr [])]

/-- Second normalization of `c8Body1`: the empty-string group is falsy, so the
group field disappears. -/
def c8Body2 : JsonV :=
  .obj [("mode", .str (jstr "recipe")), ("title", .str (jstr "Soup")),
    ("ingredients", .arr [.obj [("items", .arr [.str (jstr "salt")])]]),
    ("steps", .arr [.str (jstr "Mix.")]),
    ("used_ingredients", .arr []), ("suggested_additions", .arr [])]

/-- C8 (counterexample): normalization is not idempotent as claimed — a recipe
payload whose ingredient group was whitespace-only normalizes to a payload
with `group: ""`, and re-normalizing that output drops the group field,
producing a different payload. -/
theorem c8Counterexample :
    handleParsed (.obj c8FsIn) = .ok c8Body1 ∧
    handleParsed c8Body1 = .ok c8Body2 ∧
    c8Body1 ≠ c8Body2 := by
  refine ⟨rfl, rfl, ?_⟩
  intro hEq
  have hing := congrArg (fun b => jProp b "ingredients") hEq
  simp [c8Body1, c8Body2, jProp, lookupF] at hing

/-- Input for the C8 witness: a recipe with a group-less ingredient list. -/
def c8WitnessFs : List (String × JsonV) :=
  [("mode", .str (jstr "recipe")), ("title", .str (jstr "Tea")),
   ("ingredients", .arr [.obj [("items", .arr [.str (jstr "water")])]]),
   ("steps", .arr [.str (jstr "Boil.")])]

/-- The single normalized ingredient group of the C8 witness. -/
def c8WitnessGroup : JsonV := .obj [("items", .arr [.str (jstr "water")])]

/-- The normalized form of the C8 witness input. -/
def c8WitnessBody : JsonV :=
  .obj [("mode", .str (jstr "recipe")), ("title", .str (jstr "Tea")),
    ("ingredients", .arr [c8WitnessGroup]),
    ("steps", .arr [.str (jstr "Boil.")]),
    ("used_ingredients", .arr []), ("suggested_additions", .arr [])]

/-- C8 (witness): a concrete normalized recipe payload is reproduced
unchanged by a second normalization pass. -/
theorem c8Witness : handleParsed c8WitnessBody = .ok c8WitnessBody :=
  c8NormalizationIdempotent c8WitnessFs c8WitnessBody rfl (by
    intro gl hgl g hg
    have h1 : some (JsonV.arr [c8WitnessGroup]) = some (JsonV.arr gl) :=
      Eq.trans (Eq.symm (rfl :
        jProp c8WitnessBody "ingredients" = some (.arr [c8WitnessGroup]))) hgl
    have h2 : gl = [c8WitnessGroup] := by
      injection h1 with h1b
      injection h1b with h1c
      exact h1c.symm
    subst h2
    simp only [List.mem_singleton] at hg
    subst hg
    intro hbad
    exact Option.noConfusion
      ((rfl : jProp c8WitnessGroup "group" = none).symm.trans hbad))

/-- A landing payload that passes the top-level shape check but whose single
section has no `title`. -/
def c9BadLanding : JsonV :=
  .obj [("mode", .str (jstr "landing")), ("intro", .str (jstr "hi")),
    ("sections", .arr [.obj [("teaser", .str (jstr "t"))]])]

/-- C9: a landing payload passing the top-level shape check whose section
lacks a string `title` is not rejected with the landing-shape 502; the
per-section `s.title.toUpperCase()` throws, and the outer catch surfaces the
request as a generic 500. -/
theorem c9BadSectionTitle500 :
    handleParsed c9BadLanding = .fail 500 (.caught typeErrMsg) := rfl

/-- C6: a valid landing payload with more than 8 sections is normalized to
exactly the first 8 sections (in their original relative order, each
individually normalized), the excess being dropped silently. -/
theorem c6SectionsTruncation (fs : List (String × JsonV)) (iv : JStr)
    (secs ys : List JsonV)
    (hmode : lookupF fs "mode" = some (.str modeLanding))
    (hintro : lookupF fs "intro" = some (.str iv))
    (hsecs : lookupF fs "sections" = some (.arr secs))
    (hlen : 8 < secs.length)
    (hok : mapE normSectionJ (secs.take 8) = .ok ys) :
    handleParsed (.obj fs) = .ok (objSet (.obj fs) "sections" (.arr ys)) ∧
    ys.length = 8 := by
  constructor
  · rw [handleParsedObjMode _ _ hmode, if_pos rfl]
    unfold landingBranch
    rw [jProp, jProp, hintro, hsecs]
    simp only [hok]
  · rw [mapELength _ _ _ hok, List.length_take]
    omega

/-- A landing section used by the C6 witness. -/
def c6Sec : JsonV := .obj [("title", .str (jstr "A"))]

/-- Its normalized form. -/
def c6SecN : JsonV := secObj (jstr "A") [] (jstr "/recipes/a")

/-- The C6 witness input: nine identical sections. -/
def c6Fs : List (String × JsonV) :=
  [("mode", .str (jstr "landing")), ("intro", .str (jstr "ideas")),
   ("sections", .arr [c6Sec, c6Sec, c6Sec, c6Sec, c6Sec, c6Sec, c6Sec, c6Sec, c6Sec])]

/-- C6 (witness): the nine-section landing input is truncated to eight
normalized sections. -/
theorem c6Witness :
    handleParsed (.obj c6Fs) = .ok (objSet (.obj c6Fs) "sections"
      (.arr [c6SecN, c6SecN, c6SecN, c6SecN, c6SecN, c6SecN, c6SecN, c6SecN])) ∧
    ([c6SecN, c6SecN, c6SecN, c6SecN, c6SecN, c6SecN, c6SecN, c6SecN] : List JsonV).length = 8 :=
  c6SectionsTruncation c6Fs (jstr "ideas")
    [c6Sec, c6Sec, c6Sec, c6Sec, c6Sec, c6Sec, c6Sec, c6Sec, c6Sec]
    [c6SecN, c6SecN, c6SecN, c6SecN, c6SecN, c6SecN, c6SecN, c6SecN]
    rfl rfl rfl (by decide) rfl

/-- C10: recipe normalization rewrites only `title`, `intro`, `ingredients`,
`steps`, `used_ingredients` and `suggested_additions`; every other field —
in particular `servings`, `time` and `notes` — reads back exactly as it
appeared in the parsed model output, present or absent. -/
theorem c10RecipeFrame (fs : List (String × JsonV)) (body : JsonV)
    (h : handleParsed (.obj fs) = .ok body)
    (hmode : lookupF fs "mode" = some (.str modeRecipe)) :
    ∀ k : String, k ∉ recipeKeys → jProp body k = lookupF fs k := by
  rcases handleParsedInv _ _ h with ⟨hm, _⟩ | ⟨hm, hrb⟩
  · rw [jProp, hmode] at hm
    injection hm with hx
    injection hx with hy
    exact absurd hy (by decide)
  · obtain ⟨t, gs, ss, gs2, us, sa, _, _, _, _, _, _, hbody⟩ := recipeInv _ _ hrb
    obtain ⟨_, _, _, _, _, hFrame, _⟩ := recipeAssembleProp fs t gs2 ss us sa
    rw [← hbody] at hFrame
    exact hFrame

/-- The C10 witness input: a recipe carrying `servings`, `time` and `notes`. -/
def c10Fs : List (String × JsonV) :=
  [("mode", .str (jstr "recipe")), ("title", .str (jstr "T")),
   ("servings", .num (jstr "4")), ("time", .obj [("total", .str (jstr "10m"))]),
   ("ingredients", .arr []), ("steps", .arr []),
   ("notes", .arr [.str (jstr "note")])]

/-- Its normalized form. -/
def c10Body : JsonV :=
  .obj [("mode", .str (jstr "recipe")), ("title", .str (jstr "T")),
    ("servings", .num (jstr "4")), ("time", .obj [("total", .str (jstr "10m"))]),
    ("ingredients", .arr []), ("steps", .arr []),
    ("notes", .arr [.str (jstr "note")]),
    ("used_ingredients", .arr []), ("suggested_additions", .arr [])]

/-- C10 (witness): `servings`, `time` and `notes` of the concrete normalized
recipe read back exactly as in the input. -/
theorem c10Witness :
    jProp c10Body "servings" = lookupF c10Fs "servings" ∧
    jProp c10Body "time" = lookupF c10Fs "time" ∧
    jProp c10Body "notes" = lookupF c10Fs "notes" :=
  ⟨c10RecipeFrame c10Fs c10Body rfl rfl "servings" (by decide),
    c10RecipeFrame c10Fs c10Body rfl rfl "time" (by decide),
    c10RecipeFrame c10Fs c10Body rfl rfl "notes" (by decide)⟩

/-- C7: in a successfully normalized landing section, a url that was absent,
null, or a string not starting with `/` is replaced by
`/recipes/<slugify(title)>` computed from the normalized (upper-cased,
trimmed) title — `slugify` lower-cases, strips characters outside
`[a-z0-9\s-]`, trims, and collapses whitespace runs to `-` — while a url
starting with `/` passes through unchanged. -/
theorem c7UrlDerivation (s r : JsonV) (t : JStr)
    (ht : jProp s "title" = some (.str t))
    (hok : normSectionJ s = .ok r) :
    ((jProp s "url" = none ∨ jProp s "url" = some .null ∨
      (∃ u, jProp s "url" = some (.str u) ∧ leadSlash u = false)) →
      jProp r "url" = some (.str (recipesStem ++ slugify (jsTrim (jsUpper t))))) ∧
    (∀ u, jProp s "url" = some (.str u) → leadSlash u = true →
      jProp r "url" = some (.str u)) := by
  obtain ⟨fs, hfs⟩ := jPropSomeIsObj s "title" _ ht
  subst hfs
  rw [jProp] at ht
  unfold normSectionJ at hok
  rw [hAccessObj, ht] at hok
  replace hok : (match sectionUrl (.obj fs) (jsTrim (jsUpper t)) with
    | .error m => Except.error m
    | .ok url =>
      match sectionTeaser (.obj fs) with
      | .error m => Except.error m
      | .ok te => Except.ok (secObj (jsTrim (jsUpper t)) te url)) = .ok r := hok
  cases hurl : sectionUrl (.obj fs) (jsTrim (jsUpper t)) with
  | error m => rw [hurl] at hok; exact absurd hok (by simp)
  | ok url =>
    rw [hurl] at hok
    cases hte : sectionTeaser (.obj fs) with
    | error m => rw [hte] at hok; exact absurd hok (by simp)
    | ok te =>
      rw [hte] at hok
      simp only [Except.ok.injEq] at hok
      subst hok
      constructor
      · intro hcase
        unfold sectionUrl at hurl
        have hurlval : url = recipesStem ++ slugify (jsTrim (jsUpper t)) := by
          rcases hcase with hc | hc | ⟨u, hc, hlead⟩
          · rw [hc] at hurl
            simpa using hurl.symm
          · rw [hc] at hurl
            simpa using hurl.symm
          · rw [hc] at hurl
            simp [hlead] at hurl
            exact hurl.symm
        rw [hurlval]
        simp [secObj, jProp, lookupF]
      · intro u hu hlead
        unfold sectionUrl at hurl
        rw [hu] at hurl
        simp [hlead] at hurl
        rw [← hurl]
        simp [secObj, jProp, lookupF]

/-- The C7 witness section: commentary-free title, no url. -/
def c7Sec : JsonV := .obj [("title", .str (jstr " Tuna Roll "))]

/-- A second C7 witness section with a pass-through url. -/
def c7SecSlash : JsonV :=
  .obj [("title", .str (jstr "A")), ("url", .str (jstr "/custom"))]

/-- C7 (witness): the absent url derives `/recipes/tuna-roll`; the
slash-leading url `/custom` passes through. -/
theorem c7Witness :
    jProp (secObj (jstr "TUNA ROLL") [] (jstr "/recipes/tuna-roll")) "url" =
      some (.str (recipesStem ++ slugify (jsTrim (jsUpper (jstr " Tuna Roll "))))) ∧
    jProp (secObj (jstr "A") [] (jstr "/custom")) "url" = some (.str (jstr "/custom")) :=
  ⟨(c7UrlDerivation c7Sec (secObj (jstr "TUNA ROLL") [] (jstr "/recipes/tuna-roll"))
      (jstr " Tuna Roll ") rfl rfl).1 (.inl rfl),
    (c7UrlDerivation c7SecSlash (secObj (jstr "A") [] (jstr "/custom"))
      (jstr "A") rfl rfl).2 (jstr "/custom") rfl rfl⟩

/-- C5: the retrying transport retries only on 429/5xx with delays
`300 * 2^attempt`: a stub answering 500, 500, 200 yields the third response
after exactly the delays 300 ms and 600 ms and 3 attempts, while a stub
answering 404 first yields that response immediately, after 1 attempt and no
delay. -/
theorem c5RetryPolicy :
    (∀ stub : Nat → FwResp, (stub 0).status = 500 → (stub 1).status = 500 →
      (stub 2).status = 200 →
      fwFetchWithRetry stub 3 = .resp (stub 2) 3 [300, 600]) ∧
    (∀ stub : Nat → FwResp, (stub 0).status = 404 →
      fwFetchWithRetry stub 3 = .resp (stub 0) 1 []) := by
  constructor
  · intro stub h0 h1 h2
    unfold fwFetchWithRetry
    simp [fwGo, respOk, retryable, h0, h1, h2]
  · intro stub h0
    unfold fwFetchWithRetry
    simp [fwGo, respOk, retryable, h0]

/-- The retry-policy stub answering 500, 500, then 200. -/
def c5Stub500 : Nat → FwResp :=
  fun i => if i = 0 then ⟨500, jstr "e0"⟩ else if i = 1 then ⟨500, jstr "e1"⟩
    else ⟨200, jstr "payload"⟩

/-- The retry-policy stub answering 404. -/
def c5Stub404 : Nat → FwResp := fun _ => ⟨404, jstr "not found"⟩

/-- C5 (witness): the two retry scenarios at concrete stubs. -/
theorem c5Witness :
    fwFetchWithRetry c5Stub500 3 = .resp (c5Stub500 2) 3 [300, 600] ∧
    fwFetchWithRetry c5Stub404 3 = .resp (c5Stub404 0) 1 [] :=
  ⟨c5RetryPolicy.1 c5Stub500 rfl rfl rfl, c5RetryPolicy.2 c5Stub404 rfl⟩

/-- When the status is retryable (429 or 5xx), `Response.ok` is false. -/
theorem respOkFalseOfRetryable (r : FwResp) (h : retryable r.status = true) :
    respOk r = false := by
  unfold retryable at h
  unfold respOk
  simp only [Bool.or_eq_true, beq_iff_eq, Bool.and_eq_true, decide_eq_true_eq] at h
  simp only [Bool.and_eq_false_iff, decide_eq_false_iff_not]
  rcases h with h | h
  · right; omega
  · right; omega

/-- C2 (amended): when all three attempts draw a retryable status (429 or
5xx), the retry loop exhausts and throws the last captured body; the route's
outer catch surfaces this as HTTP 500 (not 502) with the error message equal
to the body of the last provider response. -/
theorem c2RetryExhaustion (stub : Nat → FwResp)
    (h0 : retryable (stub 0).status = true)
    (h1 : retryable (stub 1).status = true)
    (h2 : retryable (stub 2).status = true) :
    POST_model stub = .fail 500 (.caught (stub 2).body) := by
  have e0 := respOkFalseOfRetryable (stub 0) h0
  have e1 := respOkFalseOfRetryable (stub 1) h1
  have e2 := respOkFalseOfRetryable (stub 2) h2
  unfold POST_model fwFetchWithRetry
  simp [fwGo, e0, e1, e2, h0, h1, h2]

/-- The all-429 stub for the C2 counterexample and witness. -/
def c2Stub : Nat → FwResp := fun _ => ⟨429, jstr "over quota"⟩

/-- The HTTP status of a handler outcome. -/
def resultStatus : PostResult → Nat
  | .ok _ => 200
  | .fail st _ => st

/-- C2 (counterexample): with 429 on all three attempts the failure carries
the last body, but it is surfaced with HTTP status 500 — the thrown error
lands in the route's generic catch — not 502 as claimed. -/
theorem c2Counterexample :
    POST_model c2Stub = .fail 500 (.caught (jstr "over quota")) ∧
    resultStatus (POST_model c2Stub) ≠ 502 :=
  ⟨rfl, by decide⟩

/-- C2 (witness): the amended statement at the concrete all-429 stub. -/
theorem c2Witness : POST_model c2Stub = .fail 500 (.caught (c2Stub 2).body) :=
  c2RetryExhaustion c2Stub rfl rfl rfl

/-- Dropping a prefix all of whose characters satisfy the predicate. -/
theorem dropWhileAppendAll (p : Char → Bool) (l1 l2 : JStr)
    (h : ∀ c ∈ l1, p c = true) :
    (l1 ++ l2).dropWhile p = l2.dropWhile p := by
  induction l1 with
  | nil => simp
  | cons a t ih =>
    simp only [List.cons_append, List.dropWhile_cons, h a (by simp), if_true]
    exact ih (fun c hc => h c (by simp [hc]))

/-- C1 (amended): the extraction step recovers a trailing balanced object only
when the object really ends the completion text: if the text is commentary
containing no `\x7b` followed by a span that starts with `\x7b` and ends — at
the very end of the string — with `\x7d`, the regex match succeeds and the
span replaces the raw text.  (Text after the closing brace, such as a closing
code fence, defeats the end-anchored regex: see the counterexample.) -/
theorem c1ExtractionTolerance (pre ob : JStr)
    (hpre : ∀ c ∈ pre, c ≠ lbrace)
    (hhead : ob.head? = some lbrace)
    (hlast : ob.getLast? = some rbrace)
    (hlen : 2 ≤ ob.length) :
    extractJson (pre ++ ob) = ob := by
  have hdrop : (pre ++ ob).dropWhile (fun c => c != lbrace) = ob := by
    rw [dropWhileAppendAll _ _ _ (fun c hc => by simpa using hpre c hc)]
    cases ob with
    | nil => simp at hhead
    | cons a rest =>
      simp at hhead
      subst hhead
      simp [List.dropWhile_cons]
  show (if 2 ≤ ((pre ++ ob).dropWhile (fun c => c != lbrace)).length ∧
      ((pre ++ ob).dropWhile (fun c => c != lbrace)).getLast? = some rbrace
    then (pre ++ ob).dropWhile (fun c => c != lbrace) else pre ++ ob) = ob
  rw [hdrop, if_pos ⟨hlen, hlast⟩]

/-- The code-fenced completion text from the claim. -/
def c1Fenced : JStr :=
  jstr "Sure! \x60\x60\x60json\n\x7b\"mode\":\"recipe\"\x7d\n\x60\x60\x60"

/-- The balanced JSON object embedded in `c1Fenced`. -/
def c1Obj : JStr := jstr "\x7b\"mode\":\"recipe\"\x7d"

/-- The commentary before the object in the witness. -/
def c1Pre : JStr := jstr "Sure! "

/-- C1 (counterexample): on the claim's own code-fenced example the regex
does not match (the text ends with backticks, not `\x7d`), the raw text is
left whole, the extraction does not return the embedded object, and the
request fails with the InvalidModelJSON 502. -/
theorem c1Counterexample :
    extractJson c1Fenced = c1Fenced ∧
    extractJson c1Fenced ≠ c1Obj ∧
    handleCompletion c1Fenced = .fail 502 (.invalidModelJson c1Fenced) := by
  refine ⟨rfl, ?_, rfl⟩
  intro h
  exact absurd (congrArg List.length h) (by decide)

/-- C1 (witness): commentary with no brace followed by a trailing balanced
object is extracted to exactly that object. -/
theorem c1Witness : extractJson (c1Pre ++ c1Obj) = c1Obj :=
  c1ExtractionTolerance c1Pre c1Obj (by decide) (by decide) (by decide) (by decide)

/-- C4 (amended): when the provider envelope is valid JSON but the nested
completion `choices[0].message.content` is absent (or null), the handler
falls back to the empty string, whose `JSON.parse` failure is surfaced as the
same "Invalid JSON from model" 502 (`InvalidModelJSON`, with `raw = ""`);
the code has no distinct MalformedProviderResponse error. -/
theorem c4MissingContent (data : JsonV)
    (h : contentChain data = none ∨ contentChain data = some .null) :
    handleEnvelope data = .fail 502 (.invalidModelJson []) := by
  have hraw : rawOf data = .ok [] := by
    unfold rawOf
    rcases h with h | h <;> rw [h]
  unfold handleEnvelope
  rw [hraw]
  rfl

/-- A valid envelope with no completion at the expected location. -/
def c4Env : JsonV := .obj [("choices", .arr [])]

/-- C4 (counterexample): the envelope lacking the completion does not produce
any distinct malformed-envelope error: it produces exactly the same
`InvalidModelJSON` ("Invalid JSON from model") discriminator that any
unparsable completion text produces, with `raw = ""`. -/
theorem c4Counterexample :
    handleEnvelope c4Env = .fail 502 (.invalidModelJson []) ∧
    handleCompletion (jstr "not json") = .fail 502 (.invalidModelJson (jstr "not json")) :=
  ⟨rfl, rfl⟩

/-- C4 (witness): the amended statement at the concrete envelope. -/
theorem c4Witness : handleEnvelope c4Env = .fail 502 (.invalidModelJson []) :=
  c4MissingContent c4Env (.inl rfl)

/-- C3 (amended): in a successfully normalized recipe payload, `steps` and
every group's `items` are elementwise trimmed with empty strings removed;
`used_ingredients` and `suggested_additions` are elementwise trimmed but
empty strings are not removed; `notes` is left completely untouched; `title`
is trimmed. -/
theorem c3ListFieldNormalization (fs : List (String × JsonV)) (body : JsonV)
    (h : handleParsed (.obj fs) = .ok body)
    (hmode : lookupF fs "mode" = some (.str modeRecipe)) :
    (∃ l, jProp body "steps" = some (.arr l) ∧
      ∀ x ∈ l, ∃ s : JStr, x = .str s ∧ jsTrim s = s ∧ s ≠ []) ∧
    (∃ gl, jProp body "ingredients" = some (.arr gl) ∧
      ∀ g ∈ gl, ∃ its, jProp g "items" = some (.arr its) ∧
        ∀ x ∈ its, ∃ s : JStr, x = .str s ∧ jsTrim s = s ∧ s ≠ []) ∧
    (∃ l, jProp body "used_ingredients" = some (.arr l) ∧
      ∀ x ∈ l, ∃ s : JStr, x = .str s ∧ jsTrim s = s) ∧
    (∃ l, jProp body "suggested_additions" = some (.arr l) ∧
      ∀ x ∈ l, ∃ s : JStr, x = .str s ∧ jsTrim s = s) ∧
    jProp body "notes" = lookupF fs "notes" ∧
    (∃ s : JStr, jProp body "title" = some (.str s) ∧ jsTrim s = s) := by
  rcases handleParsedInv _ _ h with ⟨hm, _⟩ | ⟨hm, hrb⟩
  · rw [jProp, hmode] at hm
    injection hm with hx
    injection hx with hy
    exact absurd hy (by decide)
  · obtain ⟨t, gs, ss, gs2, us, sa, ht, hgs, hss, hgs2, hus, hsa, hbody⟩ := recipeInv _ _ hrb
    obtain ⟨hT, hI, hS, hU, hA, hFrame, hIntro⟩ := recipeAssembleProp fs t gs2 ss us sa
    rw [← hbody] at hT hI hS hU hA hFrame
    refine ⟨⟨strNormFilter ss, hS, fun x hx => memStrNormFilter ss x hx⟩,
      ⟨gs2, hI, ?_⟩,
      ⟨us, hU, recNormUSMem _ _ hus⟩,
      ⟨sa, hA, recNormUSMem _ _ hsa⟩,
      ?_, ⟨jsTrim t, hT, jsTrimIdem t⟩⟩
    · intro g hg
      obtain ⟨x, _, hx⟩ := mapEMem _ _ _ hgs2 g hg
      rcases normGroupShape x g hx with ⟨gsx, its, hgy, _, hfix⟩ | ⟨its, hgy, hfix⟩
      · subst hgy
        refine ⟨its, by simp [jProp, lookupF], fun z hz => ?_⟩
        rw [← hfix] at hz
        exact memStrNormFilter its z hz
      · subst hgy
        refine ⟨its, by simp [jProp, lookupF], fun z hz => ?_⟩
        rw [← hfix] at hz
        exact memStrNormFilter its z hz
    · exact hFrame "notes" (by decide)

/-- The C3 counterexample input: whitespace-only `used_ingredients` entry and
untrimmed `notes`. -/
def c3Fs : List (String × JsonV) :=
  [("mode", .str (jstr "recipe")), ("title", .str (jstr "T")),
   ("ingredients", .arr []), ("steps", .arr [.str (jstr "Stir.")]),
   ("notes", .arr [.str (jstr " keep warm ")]),
   ("used_ingredients", .arr [.str (jstr "  ")])]

/-- Its normalized form. -/
def c3Body : JsonV :=
  .obj [("mode", .str (jstr "recipe")), ("title", .str (jstr "T")),
    ("ingredients", .arr []), ("steps", .arr [.str (jstr "Stir.")]),
    ("notes", .arr [.str (jstr " keep warm ")]),
    ("used_ingredients", .arr [.str []]),
    ("suggested_additions", .arr [])]

/-- C3 (counterexample): after a successful normalization, the
whitespace-only `used_ingredients` entry survives as the empty string (it is
trimmed but not filtered), and `notes` keeps its untrimmed element — so not
every list-of-text field has empty elements removed. -/
theorem c3Counterexample :
    handleParsed (.obj c3Fs) = .ok c3Body ∧
    jProp c3Body "used_ingredients" = some (.arr [.str []]) ∧
    jProp c3Body "notes" = some (.arr [.str (jstr " keep warm ")]) :=
  ⟨rfl, rfl, rfl⟩

/-- C3 (witness): the amended statement's steps clause at the concrete
normalized recipe. -/
theorem c3Witness :
    ∃ l, jProp c3Body "steps" = some (.arr l) ∧
      ∀ x ∈ l, ∃ s : JStr, x = .str s ∧ jsTrim s = s ∧ s ≠ [] :=
  (c3ListFieldNormalization c3Fs c3Body rfl rfl).1
